import Mathlib

/-!
Verification of the schedule-resolution core of `sternfield_time_table`
(`chatbot_app.py`): time normalization (`convert_to_24hour`,
`format_time_12hr`), the day-schedule builder (`get_full_day_schedule`)
and the instant resolver (`find_teacher_schedule`).

The Python code is embedded shallowly:

* Python strings are Lean `String`s; character-level operations
  (`split`, `strip`, `upper`, f-string number formatting, `int(...)`)
  are modelled by executable functions over `List Char`, because the
  built-in `String` operations do not reduce well in the kernel.
* `datetime.time` values (used only for comparison and ordering) are
  modelled by `Tod` (hour, minute) with lexicographic comparison,
  exactly the observable behaviour of `datetime.time` for `%H:%M` data.
* Python's stable `sorted(..., key=...)` is modelled by
  `List.insertionSort` with the non-strict key comparison, which is a
  stable sort and therefore produces the same list as CPython's sort.
  The only nondeterminism in the source is the iteration order of the
  `time_slots` *set* before it is sorted by start time; the embedding
  determinises it to first-occurrence order, which is only observable
  for two distinct windows with equal normalized start times.
* Timetable rows / assignment rows are structures whose string fields
  default to `""` for absent values (`dict.get(..., "")` / falsiness).
* Exceptions that the source catches are modelled by `Option`.
-/

namespace Sternfield

/-! ## Python string and number primitives -/

/-- Python `str.split(sep)` for a one-character separator, on the
character list: `"a:b" -> ["a", "b"]`, `":" -> ["", ""]`, `"" -> [""]`. -/
def splitOnChar (sep : Char) : List Char → List (List Char)
  | [] => [[]]
  | c :: rest =>
    if c = sep then [] :: splitOnChar sep rest
    else
      match splitOnChar sep rest with
      | t :: ts => (c :: t) :: ts
      | [] => [[c]]

/-- Python default `str.strip()`: drop whitespace from both ends. -/
def trimWs (cs : List Char) : List Char :=
  ((cs.dropWhile Char.isWhitespace).reverse.dropWhile Char.isWhitespace).reverse

/-- Core of Python `int(str)` digit parsing: a nonempty digit string,
with single underscores allowed between digits (CPython numeric-literal
rule).  Returns the accumulated value. -/
def pyDigitsCore : List Char → Nat → Option Nat
  | [], acc => some acc
  | c :: rest, acc =>
    if c.isDigit then pyDigitsCore rest (acc * 10 + (c.toNat - 48))
    else if c = '_' then
      match rest with
      | c2 :: rest2 =>
          if c2.isDigit then pyDigitsCore rest2 (acc * 10 + (c2.toNat - 48))
          else none
      | [] => none
    else none

/-- Python `int(str)` digit run (must start with a digit). -/
def pyDigits : List Char → Option Nat
  | [] => none
  | c :: rest => if c.isDigit then pyDigitsCore rest (c.toNat - 48) else none

/-- Python `int(str)`: strip whitespace, optional sign, digit run;
`none` models the `ValueError` that the source catches. -/
def pyInt (cs : List Char) : Option Int :=
  match trimWs cs with
  | [] => none
  | c :: rest =>
    if c = '+' then (pyDigits rest).map Int.ofNat
    else if c = '-' then (pyDigits rest).map (fun n => -(Int.ofNat n))
    else (pyDigits (c :: rest)).map Int.ofNat

/-- The decimal digit characters. -/
def digitChar (d : Nat) : Char :=
  if d = 0 then '0' else if d = 1 then '1' else if d = 2 then '2'
  else if d = 3 then '3' else if d = 4 then '4' else if d = 5 then '5'
  else if d = 6 then '6' else if d = 7 then '7' else if d = 8 then '8'
  else '9'

/-- Decimal digits of a natural number, most significant first
(fuel-based so that it reduces in the kernel). -/
def natToDigitsAux : Nat → Nat → List Char → List Char
  | 0, _, acc => acc
  | fuel + 1, n, acc =>
    if n < 10 then digitChar (n % 10) :: acc
    else natToDigitsAux fuel (n / 10) (digitChar (n % 10) :: acc)

/-- Decimal rendering of a natural number as characters. -/
def natToDigits (n : Nat) : List Char :=
  natToDigitsAux (n + 1) n []

/-- Value of a digit string (leading zeros allowed). -/
def digitsVal (cs : List Char) : Nat :=
  cs.foldl (fun a c => a * 10 + (c.toNat - 48)) 0

/-- Python f-string `{n:02d}`: sign, then digits zero-padded to total
width 2 (the sign counts towards the width, as in CPython). -/
def pyFmt02 (n : Int) : List Char :=
  if n < 0 then '-' :: natToDigits (-n).toNat
  else if (natToDigits n.toNat).length < 2 then '0' :: natToDigits n.toNat
  else natToDigits n.toNat

/-- Python f-string `{n}` for an int: plain decimal rendering. -/
def intChars (n : Int) : List Char :=
  if n < 0 then '-' :: natToDigits (-n).toNat else natToDigits n.toNat

/-- Python `str.upper()` (ASCII data in this repository). -/
def pyUpper (s : String) : String :=
  String.mk (s.toList.map Char.toUpper)

/-- Python `str.strip()`. -/
def pyStrip (s : String) : String :=
  String.mk (trimWs s.toList)

/-- Helper for `containsSub`: does `pat` start the list `s`? -/
def isStartOf : List Char → List Char → Bool
  | [], _ => true
  | _ :: _, [] => false
  | p :: ps, c :: cs => p == c && isStartOf ps cs

/-- Python `pat in s` substring test. -/
def containsSub (pat : List Char) : List Char → Bool
  | [] => pat.isEmpty
  | c :: rest => isStartOf pat (c :: rest) || containsSub pat rest

/-- Deduplication loop with an explicit `seen` accumulator, exactly the
source's `seen`-set loop. -/
def dedupFirstAux [DecidableEq α] (seen : List α) : List α → List α
  | [] => []
  | x :: xs =>
    if x ∈ seen then dedupFirstAux seen xs
    else x :: dedupFirstAux (x :: seen) xs

/-- Deduplicate keeping the first occurrence of each element, the
behaviour of the source's `seen`-set loop (and the determinisation
chosen for the `time_slots` set). -/
def dedupFirst [DecidableEq α] (l : List α) : List α :=
  dedupFirstAux [] l

/-- `datetime.time` restricted to what `%H:%M` produces: hour/minute,
compared lexicographically (the observable order of `time` objects). -/
structure Tod where
  hour : Nat
  minute : Nat
deriving DecidableEq, Inhabited

/-- Strict `<` on `datetime.time`. -/
def Tod.lt (a b : Tod) : Bool :=
  decide (a.hour < b.hour) || (a.hour == b.hour && decide (a.minute < b.minute))

/-- Non-strict `<=` on `datetime.time`. -/
def Tod.le (a b : Tod) : Bool :=
  decide (a.hour < b.hour) || (a.hour == b.hour && decide (a.minute ≤ b.minute))

/-! ## Time conversion functions (`chatbot_app.py`, lines 75-134) -/

/-- `convert_to_24hour(time_str)`: split on `':'`, parse both parts with
`int`, add 12 to hours strictly below 7, render as `{:02d}:{:02d}`;
any failure (no colon, more than one colon, non-numeric parts) returns
the input unchanged.  (The source's `':' in time_str` guard is subsumed
by the match: with no colon the split yields a single part.) -/
def convert_to_24hour (time_str : String) : String :=
  match splitOnChar ':' time_str.toList with
  | [h, m] =>
    match pyInt h, pyInt m with
    | some hours, some minutes =>
      let hours2 := if hours < 7 then hours + 12 else hours
      String.mk (pyFmt02 hours2 ++ ':' :: pyFmt02 minutes)
    | _, _ => time_str
  | _ => time_str

/-- `datetime.strptime(s, "%H:%M").time()`: one or two digits each for
hour (0-23) and minute (0-59), nothing else. `none` models the raised
`ValueError`. -/
def strptimeHM (s : String) : Option Tod :=
  match splitOnChar ':' s.toList with
  | [hs, ms] =>
    if 1 ≤ hs.length ∧ hs.length ≤ 2 ∧ hs.all Char.isDigit = true ∧
       1 ≤ ms.length ∧ ms.length ≤ 2 ∧ ms.all Char.isDigit = true then
      let h := digitsVal hs
      let m := digitsVal ms
      if h ≤ 23 ∧ m ≤ 59 then some ⟨h, m⟩ else none
    else none
  | _ => none

/-- `format_time_12hr(time_str)`: normalize via `convert_to_24hour`,
then render as `{display_hours}:{minutes:02d} {AM/PM}`; on failure the
original input is returned. -/
def format_time_12hr (time_str : String) : String :=
  let time_24hr := convert_to_24hour time_str
  match splitOnChar ':' time_24hr.toList with
  | [hs, ms] =>
    match pyInt hs, pyInt ms with
    | some hours, some minutes =>
      let pd : String × Int :=
        if hours == 0 then ("AM", 12)
        else if hours < 12 then ("AM", hours)
        else if hours == 12 then ("PM", 12)
        else ("PM", hours - 12)
      String.mk (intChars pd.2 ++ ':' :: pyFmt02 minutes ++ ' ' :: pd.1.toList)
    | _, _ => time_str
  | _ => time_str

/-! ## Data model (`chatbot_app.py` timetable rows and assignments) -/

/-- One raw timetable record.  Missing/`None` fields are modelled by
`""` (both are falsy in the source's `p.get(...)` checks). -/
structure Entry where
  Day : String
  Class : String
  Subject : String
  StartTime : String
  EndTime : String
  Period : String := ""
deriving DecidableEq

/-- One `{Class, Subject}` teacher-assignment record. -/
structure Assignment where
  Class : String
  Subject : String
deriving DecidableEq

/-- One block of `get_full_day_schedule`'s output (a Python dict; the
keys absent in some variants are modelled by `Option`/defaults). -/
structure DaySlot where
  StartTime : Tod
  EndTime : Tod
  StartTimeStr : String
  EndTimeStr : String
  type_ : String
  Class : Option String := none
  Subject : Option String := none
  Multiple : Bool := false
  Details : List Assignment := []
deriving DecidableEq, Inhabited

/-- `st.session_state.assignments.get(teacher_name, [])`. -/
def lookupAssignments (am : List (String × List Assignment)) (name : String) :
    List Assignment :=
  match am.find? (fun kv => kv.1 == name) with
  | some kv => kv.2
  | none => []

/-! ### Assigned-subject index (lines 225-230) -/

/-- `assigned_subjects_by_class.setdefault(cls, set()).add(subj)`:
association-list update adding `subj` to the class's subject set. -/
def indexAdd : List (String × List String) → String → String →
    List (String × List String)
  | [], cls, subj => [(cls, [subj])]
  | (c, ss) :: rest, cls, subj =>
    if c == cls then (c, if subj ∈ ss then ss else ss ++ [subj]) :: rest
    else (c, ss) :: indexAdd rest cls subj

/-- Build the per-teacher Class -> set-of-normalized-subjects index. -/
def buildIndex (assignments : List Assignment) : List (String × List String) :=
  assignments.foldl (fun idx a => indexAdd idx a.Class (pyUpper (pyStrip a.Subject))) []

/-- Dictionary lookup `assigned_subjects_by_class[cls]`. -/
def lookupIndex (idx : List (String × List String)) (cls : String) :
    Option (List String) :=
  (idx.find? (fun kv => kv.1 == cls)).map (fun kv => kv.2)

/-- `cls in assigned_subjects_by_class and subj in assigned_subjects_by_class[cls]`. -/
def indexHas (idx : List (String × List String)) (cls subj : String) : Bool :=
  match lookupIndex idx cls with
  | some ss => subj ∈ ss
  | none => false

/-! ### Assignment matcher (lines 262-274) -/

/-- The `/`-delimited tokens of the cleaned subject cell, each stripped:
`item_subject_clean.split("/")` with `part.strip()`. -/
def subjectTokens (subject : String) : List String :=
  (splitOnChar '/' (pyUpper (pyStrip subject)).toList).map
    (fun p => String.mk (trimWs p))

/-- Does a timetable entry match the teacher's assigned-subject index?
(`class_name in assigned_subjects_by_class` and some `/`-token of the
subject cell in the class's set — stated directly through `indexHas`,
which is that conjunction.) -/
def entryMatches (idx : List (String × List String)) (period : Entry) : Bool :=
  (subjectTokens period.Subject).any (fun tok => indexHas idx period.Class tok)

/-! ### Day schedule builder (lines 212-344) -/

/-- `all_periods_today`: same-day entries with both boundary times
present (truthy). -/
def periodsToday (timetable : List Entry) (day : String) : List Entry :=
  timetable.filter
    (fun p => pyUpper p.Day == pyUpper day && p.StartTime != "" && p.EndTime != "")

/-- The distinct raw `(StartTime, EndTime)` windows of the day
(the `time_slots` set, determinised to first-occurrence order). -/
def windowsOf (periods : List Entry) : List (String × String) :=
  dedupFirst (periods.map (fun p => (p.StartTime, p.EndTime)))

/-- The entries sharing one raw window (`period_map[(start, end)]`). -/
def groupOf (periods : List Entry) (w : String × String) : List Entry :=
  periods.filter (fun p => p.StartTime == w.1 && p.EndTime == w.2)

/-- `teaching_assignments` gathered for one window: every matching
entry contributes `{"Class": ..., "Subject": subject.strip()}`. -/
def matchedOf (idx : List (String × List String)) (group : List Entry) :
    List Assignment :=
  group.filterMap (fun period =>
    if entryMatches idx period then
      some ⟨period.Class, pyStrip period.Subject⟩
    else none)

/-- `f"{ta['Subject']} with {ta['Class']}"` display pairs. -/
def pairTexts (tas : List Assignment) : List String :=
  tas.map (fun ta => ta.Subject ++ " with " ++ ta.Class)

/-- The fixed break/activity keyword list (line 320). -/
def breakKeywords : List String :=
  ["BREAK", "ASSEMBLY", "CLINIC", "TEA", "LIBRARY", "PRACTICAL", "CLUB",
   "SPORT", "LUNCH", "STUDY", "REMEDIAL"]

/-- Does an entry's raw subject (uppercased, unstripped) contain one of
the break keywords as a substring? -/
def isBreakOf (period : Entry) : Bool :=
  breakKeywords.any (fun k => containsSub k.toList (pyUpper period.Subject).toList)

/-- The slot built for one window whose boundaries parsed to `s`/`e`:
the Teaching single / Teaching multiple / Break / Free classification
of lines 262-340. -/
def slotBody (idx : List (String × List String)) (periods : List Entry)
    (w : String × String) (s e : Tod) : DaySlot :=
  match matchedOf idx (groupOf periods w) with
  | [] =>
    match (groupOf periods w).find? isBreakOf with
    | some p =>
      { StartTime := s, EndTime := e, StartTimeStr := w.1, EndTimeStr := w.2,
        type_ := "Break", Subject := some (pyStrip p.Subject) }
    | none =>
      { StartTime := s, EndTime := e, StartTimeStr := w.1, EndTimeStr := w.2,
        type_ := "Free" }
  | [ta] =>
    { StartTime := s, EndTime := e, StartTimeStr := w.1, EndTimeStr := w.2,
      type_ := "Teaching", Class := some ta.Class, Subject := some ta.Subject }
  | ta :: ta2 :: rest =>
    let tas := ta :: ta2 :: rest
    { StartTime := s, EndTime := e, StartTimeStr := w.1, EndTimeStr := w.2,
      type_ := "Teaching", Class := some "Multiple Classes",
      Subject := some (String.intercalate ", " (dedupFirst (pairTexts tas))),
      Multiple := true, Details := tas }

/-- One loop iteration of lines 253-340: parse both boundaries, build
the slot; a parse failure is `continue` (here `none`). -/
def buildSlot (idx : List (String × List String)) (periods : List Entry)
    (w : String × String) : Option DaySlot :=
  match strptimeHM (convert_to_24hour w.1), strptimeHM (convert_to_24hour w.2) with
  | some s, some e => some (slotBody idx periods w s e)
  | _, _ => none

/-- Sort key of the window sort (line 248): the parsed 24-hour start
time.  Total by construction when every start parses (the failing case
aborts the build before sorting). -/
def startKey (w : String × String) : Tod :=
  (strptimeHM (convert_to_24hour w.1)).getD ⟨0, 0⟩

/-- The teacher's assigned-subject index (lines 221, 225-230). -/
def idxOf (am : List (String × List Assignment)) (teacher : String) :
    List (String × List String) :=
  buildIndex (lookupAssignments am teacher)

/-- The day's distinct raw windows (`time_slots`). -/
def windowsToday (timetable : List Entry) (day : String) : List (String × String) :=
  windowsOf (periodsToday timetable day)

/-- `sorted_slots` (line 248): the distinct windows sorted by parsed
24-hour start time (stable). -/
def sortedWindows (timetable : List Entry) (day : String) : List (String × String) :=
  (windowsToday timetable day).insertionSort
    (fun a b => Tod.le (startKey a) (startKey b) = true)

/-- `final_schedule` (lines 252-343): one slot per window whose two
boundaries parse (a failing window is skipped by `continue`), finally
sorted by start time. -/
def builtSchedule (timetable : List Entry) (am : List (String × List Assignment))
    (teacher day : String) : List DaySlot :=
  ((sortedWindows timetable day).filterMap
      (buildSlot (idxOf am teacher) (periodsToday timetable day))).insertionSort
    (fun a b => Tod.le a.StartTime b.StartTime = true)

/-- `get_full_day_schedule(teacher_name, day)` (lines 212-344),
returning `(full_schedule, status)` with `""` as the success status. -/
def get_full_day_schedule (timetable : List Entry)
    (am : List (String × List Assignment)) (teacher day : String) :
    List DaySlot × String :=
  if timetable.isEmpty then ([], "No timetable data loaded.")
  else if (periodsToday timetable day).isEmpty then
    ([], "No timetable entries for that day.")
  else if (windowsToday timetable day).any
      (fun w => (strptimeHM (convert_to_24hour w.1)).isNone) then
    ([], "Time parsing error in timetable.")
  else (builtSchedule timetable am teacher day, "")

/-! ### Instant resolver (`find_teacher_schedule`, lines 346-381) -/

/-- `start <= current_time_obj < end`. -/
def coversB (t : Tod) (s : DaySlot) : Bool :=
  Tod.le s.StartTime t && Tod.lt t s.EndTime

/-- `start > current_time_obj`. -/
def startsAfterB (t : Tod) (s : DaySlot) : Bool :=
  Tod.lt t s.StartTime

/-- One iteration of the current/next scanning loop (lines 371-378):
a covering lesson becomes `current` (and `continue`s); otherwise a
later-starting lesson becomes `next` if `next` is still unset. -/
def stepCN (t : Tod) (cn : Option DaySlot × Option DaySlot) (lesson : DaySlot) :
    Option DaySlot × Option DaySlot :=
  if coversB t lesson then (some lesson, cn.2)
  else if startsAfterB t lesson && cn.2.isNone then (cn.1, some lesson)
  else cn

/-- The whole scanning loop over the sorted teaching periods. -/
def scanCN (t : Tod) (teaching : List DaySlot) :
    Option DaySlot × Option DaySlot :=
  teaching.foldl (stepCN t) (none, none)

/-- `teaching_periods` filtered and re-sorted by start (lines 365-366). -/
def teachingSorted (full : List DaySlot) : List DaySlot :=
  (full.filter (fun p => p.type_ == "Teaching")).insertionSort
    (fun a b => Tod.le a.StartTime b.StartTime = true)

/-- `find_teacher_schedule(teacher_name, day, current_time_str)`:
`(current_lesson, next_lesson, status, free_periods)`. -/
def find_teacher_schedule (timetable : List Entry)
    (am : List (String × List Assignment)) (teacher day current_time_str : String) :
    Option DaySlot × Option DaySlot × String × List DaySlot :=
  if timetable.isEmpty then (none, none, "No timetable loaded.", [])
  else
    match strptimeHM (convert_to_24hour current_time_str) with
    | none => (none, none, "Invalid time format. Use HH:MM.", [])
    | some t =>
      if (get_full_day_schedule timetable am teacher day).2 != "" then
        (none, none, (get_full_day_schedule timetable am teacher day).2, [])
      else
        ((scanCN t (teachingSorted (get_full_day_schedule timetable am teacher day).1)).1,
         (scanCN t (teachingSorted (get_full_day_schedule timetable am teacher day).1)).2,
         "",
         (get_full_day_schedule timetable am teacher day).1.filter
           (fun p => p.type_ == "Free"))

/-! ## Derived notions used in the statements -/

/-- The raw window a slot was built from. -/
def rawWin (s : DaySlot) : String × String :=
  (s.StartTimeStr, s.EndTimeStr)

/-- Both boundary times of a window normalize and parse. -/
def bothParse (w : String × String) : Prop :=
  (strptimeHM (convert_to_24hour w.1)).isSome = true ∧
  (strptimeHM (convert_to_24hour w.2)).isSome = true

/-- Parsed start of a window (defaulting; only used under `bothParse`). -/
def startParsed (w : String × String) : Tod :=
  (strptimeHM (convert_to_24hour w.1)).getD ⟨0, 0⟩

/-- Parsed end of a window (defaulting; only used under `bothParse`). -/
def endParsed (w : String × String) : Tod :=
  (strptimeHM (convert_to_24hour w.2)).getD ⟨0, 0⟩

/-- Two windows are non-overlapping as half-open time intervals. -/
def winDisjoint (w w' : String × String) : Prop :=
  Tod.le (endParsed w) (startParsed w') = true ∨
  Tod.le (endParsed w') (startParsed w) = true

/-- Two built slots are non-overlapping as half-open time intervals. -/
def slotsDisjoint (a b : DaySlot) : Prop :=
  Tod.le a.EndTime b.StartTime = true ∨ Tod.le b.EndTime a.StartTime = true

instance : DecidablePred bothParse := fun w => by
  unfold bothParse
  infer_instance

instance : DecidableRel winDisjoint := fun w w' => by
  unfold winDisjoint
  infer_instance

instance : DecidableRel slotsDisjoint := fun a b => by
  unfold slotsDisjoint
  infer_instance

/-! ## Concrete inputs used by counterexamples and witnesses -/

/-- A Monday with one good window and one whose `EndTime` is unparsable. -/
def exBadEndTt : List Entry :=
  [⟨"MONDAY", "F1", "X1", "8:00", "9:00", ""⟩,
   ⟨"MONDAY", "F1", "X2", "9:00", "bad", ""⟩]

/-- A Monday with two distinct raw windows that overlap in time. -/
def exOverlapTt : List Entry :=
  [⟨"MONDAY", "F1", "X1", "8:00", "9:00", ""⟩,
   ⟨"MONDAY", "F2", "X2", "8:30", "8:45", ""⟩]

/-- Two overlapping teaching windows for one teacher. -/
def exOverlapTeachTt : List Entry :=
  [⟨"MONDAY", "F1", "MATH", "8:00", "9:00", ""⟩,
   ⟨"MONDAY", "F2", "ENG", "8:30", "9:30", ""⟩]

/-- Assignments giving Jane both overlapping windows. -/
def exOverlapTeachAm : List (String × List Assignment) :=
  [("Jane", [⟨"F1", "MATH"⟩, ⟨"F2", "ENG"⟩])]

/-- A Monday with two disjoint well-formed windows. -/
def exDisjointTt : List Entry :=
  [⟨"MONDAY", "F1", "X1", "8:00", "8:40", ""⟩,
   ⟨"MONDAY", "F1", "X2", "8:40", "9:20", ""⟩]

/-- A timetable whose only entry is on Tuesday. -/
def exTuesdayTt : List Entry :=
  [⟨"TUESDAY", "F1", "X1", "8:00", "8:40", ""⟩]

/-- Two classes in the identical window, both taught by Jane. -/
def exMultiTt : List Entry :=
  [⟨"MONDAY", "FORM 1", "MATH", "8:00", "8:40", ""⟩,
   ⟨"MONDAY", "FORM 2", "MATH", "8:00", "8:40", ""⟩]

/-- Jane's assignments for the two-class window. -/
def exMultiAm : List (String × List Assignment) :=
  [("Jane", [⟨"FORM 1", "MATH"⟩, ⟨"FORM 2", "MATH"⟩])]

/-- The spec's multi-subject cell. -/
def exEngElt : Entry := ⟨"MONDAY", "X", "ENG/ELT", "8:00", "9:00", ""⟩

/-- A single well-formed Monday teaching window. -/
def exOneTt : List Entry :=
  [⟨"MONDAY", "FORM 1", "MATH", "8:00", "8:40", ""⟩]

/-- Jane assigned to that window. -/
def exOneAm : List (String × List Assignment) :=
  [("Jane", [⟨"FORM 1", "MATH"⟩])]

/-! ## Helper lemmas: time-of-day order -/

theorem Tod.le_iff {a b : Tod} :
    Tod.le a b = true ↔ a.hour < b.hour ∨ (a.hour = b.hour ∧ a.minute ≤ b.minute) := by
  simp [Tod.le, Bool.or_eq_true, Bool.and_eq_true, decide_eq_true_eq, beq_iff_eq]

theorem Tod.lt_iff {a b : Tod} :
    Tod.lt a b = true ↔ a.hour < b.hour ∨ (a.hour = b.hour ∧ a.minute < b.minute) := by
  simp [Tod.lt, Bool.or_eq_true, Bool.and_eq_true, decide_eq_true_eq, beq_iff_eq]

theorem Tod.le_total' (a b : Tod) : Tod.le a b = true ∨ Tod.le b a = true := by
  simp only [Tod.le_iff]; omega

theorem Tod.le_trans' {a b c : Tod} (h1 : Tod.le a b = true) (h2 : Tod.le b c = true) :
    Tod.le a c = true := by
  simp only [Tod.le_iff] at *; omega

theorem Tod.not_lt_of_le {a b : Tod} (h : Tod.le a b = true) : Tod.lt b a = false := by
  simp only [Tod.le_iff] at h
  cases hlt : Tod.lt b a
  · rfl
  · simp only [Tod.lt_iff] at hlt; omega

theorem Tod.lt_eq_false_iff {a b : Tod} :
    Tod.lt a b = false ↔ Tod.le b a = true := by
  constructor
  · intro h
    simp only [Tod.le_iff]
    by_contra hc
    push_neg at hc
    have : Tod.lt a b = true := by simp only [Tod.lt_iff]; omega
    simp [this] at h
  · intro h
    exact Tod.not_lt_of_le h

/-! ## Helper lemmas: splitting on a separator character -/

theorem splitOnChar_of_not_mem {sep : Char} {l : List Char} (h : sep ∉ l) :
    splitOnChar sep l = [l] := by
  induction l with
  | nil => rfl
  | cons c rest ih =>
    have hc : ¬c = sep := fun hc => h (hc ▸ List.mem_cons_self c rest)
    have hr : sep ∉ rest := fun hr => h (List.mem_cons_of_mem c hr)
    simp only [splitOnChar, if_neg hc, ih hr]

theorem splitOnChar_append_sep {sep : Char} {a b : List Char} (ha : sep ∉ a) :
    splitOnChar sep (a ++ sep :: b) = a :: splitOnChar sep b := by
  induction a with
  | nil => simp [splitOnChar]
  | cons c rest ih =>
    have hc : ¬c = sep := fun hc => ha (hc ▸ List.mem_cons_self c rest)
    have hr : sep ∉ rest := fun hr => ha (List.mem_cons_of_mem c hr)
    simp only [List.cons_append, splitOnChar, if_neg hc, List.append_eq, ih hr]

/-! ## Helper lemmas: decimal digits -/

theorem digitChar_isDigit {d : Nat} (h : d < 10) : (digitChar d).isDigit = true := by
  interval_cases d <;> decide

theorem digitChar_toNat {d : Nat} (h : d < 10) : (digitChar d).toNat - 48 = d := by
  interval_cases d <;> decide

theorem digitChar_toNat_lt {d : Nat} (h : d < 10) :
    48 ≤ (digitChar d).toNat ∧ (digitChar d).toNat ≤ 57 := by
  interval_cases d <;> exact ⟨by decide, by decide⟩

theorem natToDigitsAux_append (fuel n : Nat) (acc : List Char) :
    natToDigitsAux fuel n acc = natToDigitsAux fuel n [] ++ acc := by
  induction fuel generalizing n acc with
  | zero => rfl
  | succ fuel ih =>
    by_cases h : n < 10
    · simp [natToDigitsAux, h]
    · simp only [natToDigitsAux, if_neg h]
      rw [ih (n / 10) (digitChar (n % 10) :: acc), ih (n / 10) [digitChar (n % 10)],
        List.append_assoc]
      rfl

theorem natToDigitsAux_all_digits (fuel n : Nat) (acc : List Char)
    (hacc : ∀ c ∈ acc, c.isDigit = true) :
    ∀ c ∈ natToDigitsAux fuel n acc, c.isDigit = true := by
  induction fuel generalizing n acc with
  | zero => exact hacc
  | succ fuel ih =>
    intro c hc
    by_cases h : n < 10
    · simp only [natToDigitsAux, if_pos h, List.mem_cons] at hc
      rcases hc with rfl | hc
      · exact digitChar_isDigit (Nat.mod_lt _ (by omega))
      · exact hacc c hc
    · simp only [natToDigitsAux, if_neg h] at hc
      refine ih (n / 10) _ ?_ c hc
      intro c' hc'
      rcases List.mem_cons.mp hc' with rfl | hc''
      · exact digitChar_isDigit (Nat.mod_lt _ (by omega))
      · exact hacc c' hc''

theorem natToDigits_all_digits (n : Nat) : ∀ c ∈ natToDigits n, c.isDigit = true :=
  natToDigitsAux_all_digits _ _ _ (by intro c hc; cases hc)

theorem natToDigitsAux_ne_nil (fuel n : Nat) (acc : List Char) (hacc : acc ≠ [])
    : natToDigitsAux fuel n acc ≠ [] := by
  induction fuel generalizing n acc with
  | zero => exact hacc
  | succ fuel ih =>
    by_cases h : n < 10
    · simp [natToDigitsAux, h]
    · simp only [natToDigitsAux, if_neg h]
      exact ih _ _ (by simp)

theorem natToDigits_ne_nil (n : Nat) : natToDigits n ≠ [] := by
  unfold natToDigits
  by_cases h : n < 10
  · simp [natToDigitsAux, h]
  · simp only [natToDigitsAux, if_neg h]
    exact natToDigitsAux_ne_nil _ _ _ (by simp)

theorem digitsVal_append_singleton (a : List Char) (c : Char) :
    digitsVal (a ++ [c]) = digitsVal a * 10 + (c.toNat - 48) := by
  unfold digitsVal
  rw [List.foldl_append]
  rfl

theorem digitsVal_cons_zero (ds : List Char) :
    digitsVal ('0' :: ds) = digitsVal ds := by
  have h : (0 * 10 + ('0'.toNat - 48)) = 0 := by decide
  unfold digitsVal
  simp only [List.foldl_cons, h]

theorem digitsVal_singleton (c : Char) : digitsVal [c] = c.toNat - 48 := by
  unfold digitsVal
  simp

theorem digitsVal_natToDigitsAux (fuel : Nat) :
    ∀ n, n < 10 ^ fuel → digitsVal (natToDigitsAux fuel n []) = n := by
  induction fuel with
  | zero =>
    intro n hn
    have : n = 0 := by simpa using hn
    subst this
    rfl
  | succ fuel ih =>
    intro n hn
    by_cases h : n < 10
    · simp only [natToDigitsAux, if_pos h]
      rw [digitsVal_singleton, digitChar_toNat (Nat.mod_lt _ (by omega)),
        Nat.mod_eq_of_lt h]
    · simp only [natToDigitsAux, if_neg h]
      rw [natToDigitsAux_append, digitsVal_append_singleton,
        digitChar_toNat (Nat.mod_lt _ (by omega))]
      have hdiv : n / 10 < 10 ^ fuel := by
        rw [Nat.div_lt_iff_lt_mul (by omega)]
        calc n < 10 ^ (fuel + 1) := hn
        _ = 10 ^ fuel * 10 := by ring
      rw [ih (n / 10) hdiv]
      omega

theorem digitsVal_natToDigits (n : Nat) : digitsVal (natToDigits n) = n := by
  unfold natToDigits
  refine digitsVal_natToDigitsAux (n + 1) n ?_
  calc n < 10 ^ n := Nat.lt_pow_self (by norm_num) n
  _ ≤ 10 ^ (n + 1) := Nat.pow_le_pow_right (by omega) (by omega)

/-! ## Helper lemmas: `int()` round-trips on rendered numbers -/

theorem dropWhile_eq_self_of_forall {p : α → Bool} {l : List α}
    (h : ∀ c ∈ l, p c = false) : l.dropWhile p = l := by
  cases l with
  | nil => rfl
  | cons c rest => simp [List.dropWhile_cons, h c (List.mem_cons_self c rest)]

theorem trimWs_eq_self {cs : List Char}
    (h : ∀ c ∈ cs, c.isWhitespace = false) : trimWs cs = cs := by
  unfold trimWs
  rw [dropWhile_eq_self_of_forall h,
    dropWhile_eq_self_of_forall (by intro c hc; exact h c (List.mem_reverse.mp hc)),
    List.reverse_reverse]

theorem Char.not_ws_of_digit {c : Char} (h : c.isDigit = true) :
    c.isWhitespace = false := by
  cases hw : c.isWhitespace
  · rfl
  · simp only [Char.isWhitespace, Bool.or_eq_true, decide_eq_true_eq] at hw
    rcases hw with ((rfl | rfl) | rfl) | rfl <;> simp at h

theorem Char.ne_of_digit_of_not_digit {c d : Char} (h : c.isDigit = true)
    (hd : d.isDigit = false) : ¬c = d := by
  intro he
  rw [he, hd] at h
  cases h

theorem pyDigitsCore_cons_digit {c : Char} {rest : List Char} {acc : Nat}
    (hc : c.isDigit = true) :
    pyDigitsCore (c :: rest) acc = pyDigitsCore rest (acc * 10 + (c.toNat - 48)) := by
  have hstep : pyDigitsCore (c :: rest) acc =
      if c.isDigit = true then pyDigitsCore rest (acc * 10 + (c.toNat - 48))
      else if c = '_' then
        match rest with
        | c2 :: rest2 =>
            if c2.isDigit = true then pyDigitsCore rest2 (acc * 10 + (c2.toNat - 48))
            else none
        | [] => none
      else none := by rw [pyDigitsCore.eq_def]
  rw [hstep, if_pos hc]

theorem pyDigitsCore_all_digits {cs : List Char} (h : ∀ c ∈ cs, c.isDigit = true) :
    ∀ acc, pyDigitsCore cs acc =
      some (cs.foldl (fun a c => a * 10 + (c.toNat - 48)) acc) := by
  induction cs with
  | nil => intro acc; rfl
  | cons c rest ih =>
    intro acc
    have hc : c.isDigit = true := h c (List.mem_cons_self c rest)
    rw [pyDigitsCore_cons_digit hc, List.foldl_cons]
    exact ih (fun c' hc' => h c' (List.mem_cons_of_mem c hc')) _

theorem pyDigits_all_digits {cs : List Char} (hne : cs ≠ [])
    (h : ∀ c ∈ cs, c.isDigit = true) :
    pyDigits cs = some (digitsVal cs) := by
  cases cs with
  | nil => exact absurd rfl hne
  | cons c rest =>
    have hc : c.isDigit = true := h c (List.mem_cons_self c rest)
    simp only [pyDigits, if_pos hc]
    rw [pyDigitsCore_all_digits (fun c' hc' => h c' (List.mem_cons_of_mem c hc'))]
    unfold digitsVal
    simp only [List.foldl_cons, Nat.zero_mul, Nat.zero_add]

theorem pyInt_all_digits {cs : List Char} (hne : cs ≠ [])
    (h : ∀ c ∈ cs, c.isDigit = true) :
    pyInt cs = some (Int.ofNat (digitsVal cs)) := by
  unfold pyInt
  rw [trimWs_eq_self (fun c hc => Char.not_ws_of_digit (h c hc))]
  cases cs with
  | nil => exact absurd rfl hne
  | cons c rest =>
    have hc : c.isDigit = true := h c (List.mem_cons_self c rest)
    have hplus : ¬c = '+' := Char.ne_of_digit_of_not_digit hc (by decide)
    have hminus : ¬c = '-' := Char.ne_of_digit_of_not_digit hc (by decide)
    simp only [if_neg hplus, if_neg hminus]
    rw [pyDigits_all_digits (by simp) h]
    rfl

theorem pyFmt02_all_digits {n : Int} (h : 0 ≤ n) :
    ∀ c ∈ pyFmt02 n, c.isDigit = true := by
  unfold pyFmt02
  rw [if_neg (by omega)]
  intro c hc
  split at hc
  · rcases List.mem_cons.mp hc with rfl | hc'
    · decide
    · exact natToDigits_all_digits _ c hc'
  · exact natToDigits_all_digits _ c hc

theorem pyFmt02_ne_nil (n : Int) : pyFmt02 n ≠ [] := by
  unfold pyFmt02
  split
  · simp
  · split
    · simp
    · exact natToDigits_ne_nil _

theorem digitsVal_pyFmt02 {n : Int} (h : 0 ≤ n) :
    digitsVal (pyFmt02 n) = n.toNat := by
  unfold pyFmt02
  rw [if_neg (by omega)]
  split
  · rw [digitsVal_cons_zero, digitsVal_natToDigits]
  · rw [digitsVal_natToDigits]

theorem pyInt_pyFmt02 {n : Int} (h : 0 ≤ n) : pyInt (pyFmt02 n) = some n := by
  rw [pyInt_all_digits (pyFmt02_ne_nil n) (pyFmt02_all_digits h),
    digitsVal_pyFmt02 h, Int.ofNat_eq_natCast, Int.toNat_of_nonneg h]

theorem colon_not_mem_pyFmt02 {n : Int} (h : 0 ≤ n) : ':' ∉ pyFmt02 n := by
  intro hc
  have := pyFmt02_all_digits h ':' hc
  simp at this

/-! ## Helper lemmas: the normalizer on split/parsed input -/

theorem convert_to_24hour_split {s : String} {hs ms : List Char}
    (hsplit : splitOnChar ':' s.toList = [hs, ms]) :
    convert_to_24hour s =
      match pyInt hs, pyInt ms with
      | some hours, some minutes =>
        String.mk (pyFmt02 (if hours < 7 then hours + 12 else hours) ++
          ':' :: pyFmt02 minutes)
      | _, _ => s := by
  unfold convert_to_24hour
  rw [hsplit]

theorem convert_to_24hour_eq {s : String} {hs ms : List Char} {h m : Int}
    (hsplit : splitOnChar ':' s.toList = [hs, ms])
    (hh : pyInt hs = some h) (hm' : pyInt ms = some m) :
    convert_to_24hour s =
      String.mk (pyFmt02 (if h < 7 then h + 12 else h) ++ ':' :: pyFmt02 m) := by
  rw [convert_to_24hour_split hsplit, hh, hm']

theorem convert_to_24hour_fixpoint {h m : Int} (h7 : 7 ≤ h) (m0 : 0 ≤ m) :
    convert_to_24hour (String.mk (pyFmt02 h ++ ':' :: pyFmt02 m)) =
      String.mk (pyFmt02 h ++ ':' :: pyFmt02 m) := by
  have h0 : 0 ≤ h := by omega
  have hsplit : splitOnChar ':' (String.mk (pyFmt02 h ++ ':' :: pyFmt02 m)).toList
      = [pyFmt02 h, pyFmt02 m] := by
    show splitOnChar ':' (pyFmt02 h ++ ':' :: pyFmt02 m) = _
    rw [splitOnChar_append_sep (colon_not_mem_pyFmt02 h0),
      splitOnChar_of_not_mem (colon_not_mem_pyFmt02 m0)]
  rw [convert_to_24hour_eq hsplit (pyInt_pyFmt02 h0) (pyInt_pyFmt02 m0),
    if_neg (by omega)]

/-! ## Claim C6: the `< 7` PM heuristic and the three display examples -/

/-- C6: for every well-formed time string (one colon, both parts parsed
by `int`), `convert_to_24hour` adds 12 to the hour exactly when the
parsed hour is strictly below 7 and keeps it otherwise, re-rendering as
zero-padded `HH:MM`; and the three display examples of the spec hold:
`display(normalize("8:15")) = "8:15 AM"`,
`display(normalize("2:15")) = "2:15 PM"`,
`display(normalize("14:15")) = "2:15 PM"`. -/
theorem C6_pm_heuristic (s : String) (hs ms : List Char) (h m : Int)
    (hsplit : splitOnChar ':' s.toList = [hs, ms])
    (hh : pyInt hs = some h) (hm' : pyInt ms = some m) :
    convert_to_24hour s =
      String.mk (pyFmt02 (if h < 7 then h + 12 else h) ++ ':' :: pyFmt02 m) ∧
    format_time_12hr (convert_to_24hour "8:15") = "8:15 AM" ∧
    format_time_12hr (convert_to_24hour "2:15") = "2:15 PM" ∧
    format_time_12hr (convert_to_24hour "14:15") = "2:15 PM" := by
  refine ⟨convert_to_24hour_eq hsplit hh hm', by decide, by decide, by decide⟩

/-- Witness for C6 at the concrete input `"2:15"` (hour 2 < 7). -/
theorem C6_pm_heuristic_witness :
    splitOnChar ':' "2:15".toList = [['2'], ['1', '5']] ∧
    pyInt ['2'] = some 2 ∧ pyInt ['1', '5'] = some 15 ∧
    (convert_to_24hour "2:15" =
       String.mk (pyFmt02 (if (2 : Int) < 7 then 2 + 12 else 2) ++ ':' :: pyFmt02 15) ∧
     format_time_12hr (convert_to_24hour "8:15") = "8:15 AM" ∧
     format_time_12hr (convert_to_24hour "2:15") = "2:15 PM" ∧
     format_time_12hr (convert_to_24hour "14:15") = "2:15 PM") :=
  ⟨by decide, by decide, by decide,
   C6_pm_heuristic "2:15" ['2'] ['1', '5'] 2 15 (by decide) (by decide) (by decide)⟩

/-! ## Claim C7: idempotence of normalization -/

/-- C7: for every well-formed time string (one colon, both parts parsed
by `int` to nonnegative values, as any digit-only `H:MM` / `HH:MM`
input is), normalization is idempotent:
`convert_to_24hour (convert_to_24hour raw) = convert_to_24hour raw`. -/
theorem C7_normalize_idempotent (raw : String) (hs ms : List Char) (h m : Int)
    (hsplit : splitOnChar ':' raw.toList = [hs, ms])
    (hh : pyInt hs = some h) (hm' : pyInt ms = some m)
    (h0 : 0 ≤ h) (m0 : 0 ≤ m) :
    convert_to_24hour (convert_to_24hour raw) = convert_to_24hour raw := by
  rw [convert_to_24hour_eq hsplit hh hm']
  exact convert_to_24hour_fixpoint (by split <;> omega) m0

/-- Witness for C7 at the concrete input `"2:15"`. -/
theorem C7_normalize_idempotent_witness :
    splitOnChar ':' "2:15".toList = [['2'], ['1', '5']] ∧
    pyInt ['2'] = some 2 ∧ pyInt ['1', '5'] = some 15 ∧
    (0 : Int) ≤ 2 ∧ (0 : Int) ≤ 15 ∧
    convert_to_24hour (convert_to_24hour "2:15") = convert_to_24hour "2:15" :=
  ⟨by decide, by decide, by decide, by decide, by decide,
   C7_normalize_idempotent "2:15" ['2'] ['1', '5'] 2 15
     (by decide) (by decide) (by decide) (by decide) (by decide)⟩

/-! ## Claim C9: soft failure on malformed input -/

/-- C9: on malformed input the normalizer returns the original string
unchanged: when the string has no colon, and when it has exactly one
colon but a part on which `int()` fails (non-numeric). -/
theorem C9_soft_parse_failure (s : String) :
    (':' ∉ s.toList → convert_to_24hour s = s) ∧
    (∀ hs ms : List Char, splitOnChar ':' s.toList = [hs, ms] →
      pyInt hs = none ∨ pyInt ms = none → convert_to_24hour s = s) := by
  constructor
  · intro hnc
    unfold convert_to_24hour
    rw [splitOnChar_of_not_mem hnc]
  · intro hs ms hsplit hfail
    rw [convert_to_24hour_split hsplit]
    rcases hfail with hf | hf
    · rw [hf]
    · rw [hf]
      cases pyInt hs <;> rfl

/-- Witness for C9 at `"8.30"` (no colon) and `"ab:cd"` (non-numeric). -/
theorem C9_soft_parse_failure_witness :
    convert_to_24hour "8.30" = "8.30" ∧ convert_to_24hour "ab:cd" = "ab:cd" :=
  ⟨(C9_soft_parse_failure "8.30").1 (by decide),
   (C9_soft_parse_failure "ab:cd").2 ['a', 'b'] ['c', 'd'] (by decide)
     (Or.inl (by decide))⟩

/-! ## Helper lemmas: first-occurrence deduplication -/

theorem mem_dedupFirstAux [DecidableEq α] {l : List α} :
    ∀ {seen : List α} {a : α}, a ∈ dedupFirstAux seen l ↔ a ∈ l ∧ a ∉ seen := by
  induction l with
  | nil => intro seen a; simp [dedupFirstAux]
  | cons x xs ih =>
    intro seen a
    by_cases hx : x ∈ seen
    · rw [show dedupFirstAux seen (x :: xs) = dedupFirstAux seen xs from by
        simp [dedupFirstAux, hx]]
      rw [ih]
      constructor
      · rintro ⟨h1, h2⟩; exact ⟨List.mem_cons_of_mem _ h1, h2⟩
      · rintro ⟨h1, h2⟩
        rcases List.mem_cons.mp h1 with rfl | h1'
        · exact absurd hx h2
        · exact ⟨h1', h2⟩
    · rw [show dedupFirstAux seen (x :: xs) = x :: dedupFirstAux (x :: seen) xs from by
        simp [dedupFirstAux, hx]]
      constructor
      · intro h
        rcases List.mem_cons.mp h with rfl | h'
        · exact ⟨List.mem_cons_self _ _, hx⟩
        · obtain ⟨h1, h2⟩ := ih.mp h'
          exact ⟨List.mem_cons_of_mem _ h1,
            fun hs => h2 (List.mem_cons_of_mem _ hs)⟩
      · rintro ⟨h1, h2⟩
        rcases List.mem_cons.mp h1 with rfl | h1'
        · exact List.mem_cons_self _ _
        · by_cases hax : a = x
          · subst hax; exact List.mem_cons_self _ _
          · exact List.mem_cons_of_mem _ (ih.mpr
              ⟨h1', by simp [List.mem_cons, hax, h2]⟩)

theorem mem_dedupFirst [DecidableEq α] {l : List α} {a : α} :
    a ∈ dedupFirst l ↔ a ∈ l := by
  unfold dedupFirst
  rw [mem_dedupFirstAux]
  simp

theorem nodup_dedupFirstAux [DecidableEq α] {l : List α} :
    ∀ {seen : List α}, (dedupFirstAux seen l).Nodup := by
  induction l with
  | nil => intro seen; exact List.nodup_nil
  | cons x xs ih =>
    intro seen
    by_cases hx : x ∈ seen
    · rw [show dedupFirstAux seen (x :: xs) = dedupFirstAux seen xs from by
        simp [dedupFirstAux, hx]]
      exact ih
    · rw [show dedupFirstAux seen (x :: xs) = x :: dedupFirstAux (x :: seen) xs from by
        simp [dedupFirstAux, hx]]
      refine List.nodup_cons.mpr ⟨?_, ih⟩
      intro hmem
      exact (mem_dedupFirstAux.mp hmem).2 (List.mem_cons_self _ _)

theorem nodup_dedupFirst [DecidableEq α] (l : List α) : (dedupFirst l).Nodup :=
  nodup_dedupFirstAux

theorem sublist_dedupFirstAux [DecidableEq α] {l : List α} :
    ∀ {seen : List α}, (dedupFirstAux seen l).Sublist l := by
  induction l with
  | nil => intro seen; exact List.Sublist.refl _
  | cons x xs ih =>
    intro seen
    by_cases hx : x ∈ seen
    · rw [show dedupFirstAux seen (x :: xs) = dedupFirstAux seen xs from by
        simp [dedupFirstAux, hx]]
      exact List.Sublist.cons x ih
    · rw [show dedupFirstAux seen (x :: xs) = x :: dedupFirstAux (x :: seen) xs from by
        simp [dedupFirstAux, hx]]
      exact List.Sublist.cons₂ x ih

theorem sublist_dedupFirst [DecidableEq α] (l : List α) : (dedupFirst l).Sublist l :=
  sublist_dedupFirstAux

/-! ## Helper lemmas: the stable sorts -/

theorem sorted_sortedWindows (tt : List Entry) (day : String) :
    (sortedWindows tt day).Pairwise
      (fun a b => Tod.le (startKey a) (startKey b) = true) := by
  haveI : IsTotal (String × String)
      (fun a b => Tod.le (startKey a) (startKey b) = true) :=
    ⟨fun a b => Tod.le_total' _ _⟩
  haveI : IsTrans (String × String)
      (fun a b => Tod.le (startKey a) (startKey b) = true) :=
    ⟨fun _ _ _ => Tod.le_trans'⟩
  exact List.sorted_insertionSort _ _

theorem sorted_bySlotStart (l : List DaySlot) :
    (l.insertionSort (fun a b => Tod.le a.StartTime b.StartTime = true)).Pairwise
      (fun a b => Tod.le a.StartTime b.StartTime = true) := by
  haveI : IsTotal DaySlot (fun a b => Tod.le a.StartTime b.StartTime = true) :=
    ⟨fun a b => Tod.le_total' _ _⟩
  haveI : IsTrans DaySlot (fun a b => Tod.le a.StartTime b.StartTime = true) :=
    ⟨fun _ _ _ => Tod.le_trans'⟩
  exact List.sorted_insertionSort _ _

theorem winDisjoint_symm : ∀ {w w' : String × String},
    winDisjoint w w' → winDisjoint w' w := by
  intro w w' h
  exact h.symm

theorem slotsDisjoint_symm : ∀ {a b : DaySlot},
    slotsDisjoint a b → slotsDisjoint b a := by
  intro a b h
  exact h.symm

theorem pairwise_of_nodup_forall {R : α → α → Prop} {l : List α}
    (hnd : l.Nodup) (h : ∀ a ∈ l, ∀ b ∈ l, a ≠ b → R a b) : l.Pairwise R := by
  rw [List.pairwise_iff_forall_sublist]
  intro a b hsub
  have hne : a ≠ b := List.pairwise_iff_forall_sublist.mp hnd hsub
  have hmem := hsub.subset
  exact h a (hmem (List.mem_cons_self _ _))
    b (hmem (List.mem_cons_of_mem _ (List.mem_cons_self _ _))) hne

/-! ## Helper lemmas: the per-window slot -/

theorem slotBody_spec (idx : List (String × List String)) (periods : List Entry)
    (w : String × String) (s e : Tod) :
    (slotBody idx periods w s e).StartTime = s ∧
    (slotBody idx periods w s e).EndTime = e ∧
    (slotBody idx periods w s e).StartTimeStr = w.1 ∧
    (slotBody idx periods w s e).EndTimeStr = w.2 := by
  unfold slotBody
  cases matchedOf idx (groupOf periods w) with
  | nil =>
    cases (groupOf periods w).find? isBreakOf <;> exact ⟨rfl, rfl, rfl, rfl⟩
  | cons ta rest =>
    cases rest <;> exact ⟨rfl, rfl, rfl, rfl⟩

theorem buildSlot_eq_some {idx : List (String × List String)} {periods : List Entry}
    {w : String × String} {b : DaySlot} (h : buildSlot idx periods w = some b) :
    strptimeHM (convert_to_24hour w.1) = some b.StartTime ∧
    strptimeHM (convert_to_24hour w.2) = some b.EndTime ∧
    b.StartTimeStr = w.1 ∧ b.EndTimeStr = w.2 ∧
    b = slotBody idx periods w b.StartTime b.EndTime := by
  unfold buildSlot at h
  cases h1 : strptimeHM (convert_to_24hour w.1) with
  | none => rw [h1] at h; cases h
  | some s =>
    cases h2 : strptimeHM (convert_to_24hour w.2) with
    | none => rw [h1, h2] at h; cases h
    | some e =>
      rw [h1, h2] at h
      have hb : b = slotBody idx periods w s e := (Option.some.injEq _ _).mp h.symm
      obtain ⟨f1, f2, f3, f4⟩ := slotBody_spec idx periods w s e
      subst hb
      rw [f1, f2]
      exact ⟨rfl, rfl, f3, f4, rfl⟩

theorem buildSlot_isSome {idx : List (String × List String)} {periods : List Entry}
    {w : String × String} :
    (buildSlot idx periods w).isSome = true ↔ bothParse w := by
  unfold buildSlot bothParse
  cases h1 : strptimeHM (convert_to_24hour w.1) <;>
    cases h2 : strptimeHM (convert_to_24hour w.2) <;> simp

/-- The raw windows recovered from the slots of the kept windows. -/
theorem map_rawWin_filterMap (idx : List (String × List String))
    (periods : List Entry) (l : List (String × String)) :
    (l.filterMap (buildSlot idx periods)).map rawWin =
      l.filter (fun w => (buildSlot idx periods w).isSome) := by
  induction l with
  | nil => rfl
  | cons w l' ih =>
    rw [List.filterMap_cons]
    cases hb : buildSlot idx periods w with
    | none =>
      rw [List.filter_cons_of_neg (by simp [hb]), ih]
    | some b =>
      obtain ⟨_, _, f3, f4, _⟩ := buildSlot_eq_some hb
      rw [List.filter_cons_of_pos (by simp [hb]), List.map_cons, ih]
      have : rawWin b = w := by
        unfold rawWin
        rw [f3, f4]
      rw [this]

/-- Under parse success for distinct disjoint windows, the slots built
from them are pairwise disjoint. -/
theorem pairwise_slotsDisjoint_filterMap {idx : List (String × List String)}
    {periods : List Entry} {l : List (String × String)}
    (h : l.Pairwise winDisjoint) :
    (l.filterMap (buildSlot idx periods)).Pairwise slotsDisjoint := by
  rw [List.pairwise_filterMap]
  refine h.imp ?_
  intro w w' hd b hb b' hb'
  obtain ⟨s1, e1, _, _, _⟩ := buildSlot_eq_some hb
  obtain ⟨s1', e1', _, _, _⟩ := buildSlot_eq_some hb'
  unfold winDisjoint startParsed endParsed at hd
  rw [s1, e1, s1', e1'] at hd
  exact hd

/-! ## Helper lemmas: the builder's branches -/

theorem gfds_empty (am : List (String × List Assignment)) (teacher day : String) :
    get_full_day_schedule [] am teacher day = ([], "No timetable data loaded.") := rfl

theorem gfds_no_entries {tt : List Entry} (am : List (String × List Assignment))
    (teacher : String) {day : String} (h1 : tt ≠ [])
    (h2 : periodsToday tt day = []) :
    get_full_day_schedule tt am teacher day =
      ([], "No timetable entries for that day.") := by
  unfold get_full_day_schedule
  rw [if_neg (by simp [List.isEmpty_eq_false, h1]), if_pos (by simp [h2])]

theorem gfds_tpe {tt : List Entry} (am : List (String × List Assignment))
    (teacher : String) {day : String} (h1 : tt ≠ [])
    (h2 : periodsToday tt day ≠ [])
    (h3 : (windowsToday tt day).any
      (fun w => (strptimeHM (convert_to_24hour w.1)).isNone) = true) :
    get_full_day_schedule tt am teacher day =
      ([], "Time parsing error in timetable.") := by
  unfold get_full_day_schedule
  rw [if_neg (by simp [List.isEmpty_eq_false, h1]),
    if_neg (by simp [List.isEmpty_eq_false, h2]), if_pos h3]

theorem gfds_success {tt : List Entry} (am : List (String × List Assignment))
    (teacher : String) {day : String} (h1 : tt ≠ [])
    (h2 : periodsToday tt day ≠ [])
    (h3 : (windowsToday tt day).any
      (fun w => (strptimeHM (convert_to_24hour w.1)).isNone) = false) :
    get_full_day_schedule tt am teacher day =
      (builtSchedule tt am teacher day, "") := by
  unfold get_full_day_schedule
  rw [if_neg (by simp [List.isEmpty_eq_false, h1]),
    if_neg (by simp [List.isEmpty_eq_false, h2]), if_neg (by simp [h3])]

theorem anyNone_eq_false_of_startsParse {tt : List Entry} {day : String}
    (hp : ∀ w ∈ windowsToday tt day,
      (strptimeHM (convert_to_24hour w.1)).isSome = true) :
    (windowsToday tt day).any
      (fun w => (strptimeHM (convert_to_24hour w.1)).isNone) = false := by
  rw [List.any_eq_false]
  intro w hw
  have := hp w hw
  cases hx : strptimeHM (convert_to_24hour w.1)
  · rw [hx] at this; cases this
  · simp [hx]

theorem windowsToday_nodup (tt : List Entry) (day : String) :
    (windowsToday tt day).Nodup :=
  nodup_dedupFirst _

theorem buildSlot_isSome_eq_end {idx : List (String × List String)}
    {periods : List Entry} {w : String × String}
    (h : (strptimeHM (convert_to_24hour w.1)).isSome = true) :
    (buildSlot idx periods w).isSome = (strptimeHM (convert_to_24hour w.2)).isSome := by
  unfold buildSlot
  obtain ⟨s, hs⟩ := Option.isSome_iff_exists.mp h
  rw [hs]
  cases strptimeHM (convert_to_24hour w.2) <;> rfl

/-! ## Helper lemmas: the built schedule under the partition hypotheses -/

theorem builtSchedule_sorted (tt : List Entry) (am : List (String × List Assignment))
    (teacher day : String) :
    (builtSchedule tt am teacher day).Pairwise
      (fun a b => Tod.le a.StartTime b.StartTime = true) :=
  sorted_bySlotStart _

theorem builtSchedule_map_perm {tt : List Entry} {am : List (String × List Assignment)}
    {teacher day : String} (hp : ∀ w ∈ windowsToday tt day, bothParse w) :
    ((builtSchedule tt am teacher day).map rawWin).Perm (windowsToday tt day) := by
  unfold builtSchedule
  have p1 := List.perm_insertionSort
    (fun a b : DaySlot => Tod.le a.StartTime b.StartTime = true)
    ((sortedWindows tt day).filterMap
      (buildSlot (idxOf am teacher) (periodsToday tt day)))
  have p2 := p1.map rawWin
  rw [map_rawWin_filterMap] at p2
  have hfil : (sortedWindows tt day).filter
      (fun w => (buildSlot (idxOf am teacher) (periodsToday tt day) w).isSome) =
      sortedWindows tt day := by
    rw [List.filter_eq_self]
    intro w hw
    have hw' : w ∈ windowsToday tt day :=
      (List.perm_insertionSort _ _).mem_iff.mp hw
    exact buildSlot_isSome.mpr (hp w hw')
  rw [hfil] at p2
  exact p2.trans (List.perm_insertionSort _ _)

theorem builtSchedule_disjoint {tt : List Entry} {am : List (String × List Assignment)}
    {teacher day : String}
    (hd : ∀ w ∈ windowsToday tt day, ∀ w' ∈ windowsToday tt day,
      w ≠ w' → winDisjoint w w') :
    (builtSchedule tt am teacher day).Pairwise slotsDisjoint := by
  have hWpw : (windowsToday tt day).Pairwise winDisjoint :=
    pairwise_of_nodup_forall (windowsToday_nodup tt day) hd
  have hSpw : (sortedWindows tt day).Pairwise winDisjoint :=
    ((List.perm_insertionSort _ _).pairwise_iff
      (fun h => winDisjoint_symm h)).mpr hWpw
  have hX : ((sortedWindows tt day).filterMap
      (buildSlot (idxOf am teacher) (periodsToday tt day))).Pairwise slotsDisjoint :=
    pairwise_slotsDisjoint_filterMap hSpw
  exact ((List.perm_insertionSort _ _).pairwise_iff
    (fun h => slotsDisjoint_symm h)).mpr hX

theorem mem_builtSchedule {tt : List Entry} {am : List (String × List Assignment)}
    {teacher day : String} {b : DaySlot}
    (h : b ∈ builtSchedule tt am teacher day) :
    ∃ w ∈ sortedWindows tt day,
      buildSlot (idxOf am teacher) (periodsToday tt day) w = some b := by
  unfold builtSchedule at h
  have := (List.perm_insertionSort _ _).mem_iff.mp h
  rw [List.mem_filterMap] at this
  exact this

/-! ## Claim C8: NoTimetableData / NoEntriesForDay -/

/-- C8: with an empty timetable the builder fails with the
NoTimetableData message (`"No timetable data loaded."`) for every
teacher and day; with a non-empty timetable in which no entry matches
the requested day with both `StartTime` and `EndTime` present, it fails
with the NoEntriesForDay message
(`"No timetable entries for that day."`). -/
theorem C8_empty_and_day_errors (tt : List Entry)
    (am : List (String × List Assignment)) (teacher day : String) :
    (tt = [] →
      get_full_day_schedule tt am teacher day = ([], "No timetable data loaded.")) ∧
    (tt ≠ [] →
      (∀ p ∈ tt, ¬(pyUpper p.Day == pyUpper day &&
          p.StartTime != "" && p.EndTime != "") = true) →
      get_full_day_schedule tt am teacher day =
        ([], "No timetable entries for that day.")) := by
  constructor
  · rintro rfl
    exact gfds_empty am teacher day
  · intro h1 h2
    refine gfds_no_entries am teacher h1 ?_
    unfold periodsToday
    exact List.filter_eq_nil_iff.mpr h2

/-- Witness for C8: the empty timetable, and a Tuesday-only timetable
queried on Monday. -/
theorem C8_empty_and_day_errors_witness :
    get_full_day_schedule [] [] "Jane" "MONDAY" = ([], "No timetable data loaded.") ∧
    exTuesdayTt ≠ [] ∧
    get_full_day_schedule exTuesdayTt [] "Jane" "MONDAY" =
      ([], "No timetable entries for that day.") :=
  ⟨(C8_empty_and_day_errors [] [] "Jane" "MONDAY").1 rfl, by decide,
   (C8_empty_and_day_errors exTuesdayTt [] "Jane" "MONDAY").2
     (by decide) (by decide)⟩

/-! ## Claim C1: which parse failures abort the whole build -/

/-- C1 counterexample: the day `exBadEndTt`/MONDAY contains a window
boundary (`"bad"` as an `EndTime`) that cannot be normalized and
parsed, yet the build does *not* fail with the TimeParseError message:
it succeeds (`""`) and returns a partial one-slot schedule, the bad
window having been silently skipped. -/
theorem C1_counterexample :
    ("9:00", "bad") ∈ windowsToday exBadEndTt "MONDAY" ∧
    strptimeHM (convert_to_24hour "bad") = none ∧
    (get_full_day_schedule exBadEndTt [] "T" "MONDAY").2 = "" ∧
    (get_full_day_schedule exBadEndTt [] "T" "MONDAY").1.length = 1 := by
  refine ⟨by decide, by decide, by decide, by decide⟩

/-- C1 amended: for a day with at least one kept entry, the whole build
fails with the TimeParseError message exactly when some window's
*StartTime* cannot be normalized and parsed (the sort key of line 248
only parses starts); when every start parses the build succeeds with an
empty error even if some `EndTime` fails, and the slots are exactly the
windows whose `EndTime` also parses — a window with a bad end is
silently skipped rather than failing the day. -/
theorem C1_amended (tt : List Entry) (am : List (String × List Assignment))
    (teacher day : String) (h1 : tt ≠ []) (h2 : periodsToday tt day ≠ []) :
    ((get_full_day_schedule tt am teacher day).2 = "Time parsing error in timetable."
      ↔ ∃ w ∈ windowsToday tt day, strptimeHM (convert_to_24hour w.1) = none) ∧
    ((∀ w ∈ windowsToday tt day,
        (strptimeHM (convert_to_24hour w.1)).isSome = true) →
      (get_full_day_schedule tt am teacher day).2 = "" ∧
      ((get_full_day_schedule tt am teacher day).1.map rawWin).Perm
        ((windowsToday tt day).filter
          (fun w => (strptimeHM (convert_to_24hour w.2)).isSome))) := by
  constructor
  · by_cases hex : ∃ w ∈ windowsToday tt day, strptimeHM (convert_to_24hour w.1) = none
    · have h3 : (windowsToday tt day).any
          (fun w => (strptimeHM (convert_to_24hour w.1)).isNone) = true := by
        rw [List.any_eq_true]
        obtain ⟨w, hw, hwn⟩ := hex
        exact ⟨w, hw, by simp [hwn]⟩
      rw [gfds_tpe am teacher h1 h2 h3]
      simpa using hex
    · have hp : ∀ w ∈ windowsToday tt day,
          (strptimeHM (convert_to_24hour w.1)).isSome = true := by
        intro w hw
        cases hx : strptimeHM (convert_to_24hour w.1)
        · exact absurd ⟨w, hw, hx⟩ hex
        · rfl
      rw [gfds_success am teacher h1 h2 (anyNone_eq_false_of_startsParse hp)]
      constructor
      · intro hfalse
        have hlit : ("" : String) = "Time parsing error in timetable." := hfalse
        exact absurd hlit (by decide)
      · intro hx
        exact absurd hx hex
  · intro hp
    rw [gfds_success am teacher h1 h2 (anyNone_eq_false_of_startsParse hp)]
    refine ⟨rfl, ?_⟩
    unfold builtSchedule
    have p1 := List.perm_insertionSort
      (fun a b : DaySlot => Tod.le a.StartTime b.StartTime = true)
      ((sortedWindows tt day).filterMap
        (buildSlot (idxOf am teacher) (periodsToday tt day)))
    have p2 := p1.map rawWin
    rw [map_rawWin_filterMap] at p2
    refine p2.trans ?_
    have hcongr : (sortedWindows tt day).filter
        (fun w => (buildSlot (idxOf am teacher) (periodsToday tt day) w).isSome) =
        (sortedWindows tt day).filter
        (fun w => (strptimeHM (convert_to_24hour w.2)).isSome) := by
      refine List.filter_congr ?_
      intro w hw
      exact buildSlot_isSome_eq_end
        (hp w ((List.perm_insertionSort _ _).mem_iff.mp hw))
    rw [hcongr]
    exact (List.perm_insertionSort _ _).filter _

/-- Witness for C1 amended at `exBadEndTt` (good starts, one bad end). -/
theorem C1_amended_witness :
    exBadEndTt ≠ [] ∧ periodsToday exBadEndTt "MONDAY" ≠ [] ∧
    ((get_full_day_schedule exBadEndTt [] "T" "MONDAY").2 =
        "Time parsing error in timetable."
      ↔ ∃ w ∈ windowsToday exBadEndTt "MONDAY",
          strptimeHM (convert_to_24hour w.1) = none) ∧
    ((get_full_day_schedule exBadEndTt [] "T" "MONDAY").2 = "" ∧
      ((get_full_day_schedule exBadEndTt [] "T" "MONDAY").1.map rawWin).Perm
        ((windowsToday exBadEndTt "MONDAY").filter
          (fun w => (strptimeHM (convert_to_24hour w.2)).isSome))) :=
  ⟨by decide, by decide,
   (C1_amended exBadEndTt [] "T" "MONDAY" (by decide) (by decide)).1,
   (C1_amended exBadEndTt [] "T" "MONDAY" (by decide) (by decide)).2 (by decide)⟩

/-! ## Claim C2: shape of a successfully built day -/

/-- C2 counterexample: on `exOverlapTt`/MONDAY (two distinct raw
windows overlapping in time, both well-formed) the builder succeeds
with two slots that are *not* pairwise non-overlapping, so the claimed
invariant fails as stated. -/
theorem C2_counterexample :
    (get_full_day_schedule exOverlapTt [] "T" "MONDAY").2 = "" ∧
    (get_full_day_schedule exOverlapTt [] "T" "MONDAY").1.length = 2 ∧
    ¬ (get_full_day_schedule exOverlapTt [] "T" "MONDAY").1.Pairwise slotsDisjoint := by
  refine ⟨by decide, by decide, by decide⟩

/-- C2 amended: for every day with at least one kept entry, *provided*
every distinct window's two boundaries parse and distinct windows are
pairwise non-overlapping as parsed intervals (the partition situation
the spec assumes), the built slot list is sorted ascending by
normalized start time, pairwise non-overlapping, and carries exactly
one slot per distinct raw window (its raw windows are a permutation of
the day's deduplicated window list, which has no duplicates) — never a
slot split or merged across windows. -/
theorem C2_amended (tt : List Entry) (am : List (String × List Assignment))
    (teacher day : String) (h2 : periodsToday tt day ≠ [])
    (hp : ∀ w ∈ windowsToday tt day, bothParse w)
    (hd : ∀ w ∈ windowsToday tt day, ∀ w' ∈ windowsToday tt day,
      w ≠ w' → winDisjoint w w') :
    (get_full_day_schedule tt am teacher day).2 = "" ∧
    (get_full_day_schedule tt am teacher day).1.Pairwise
      (fun a b => Tod.le a.StartTime b.StartTime = true) ∧
    (get_full_day_schedule tt am teacher day).1.Pairwise slotsDisjoint ∧
    ((get_full_day_schedule tt am teacher day).1.map rawWin).Perm
      (windowsToday tt day) ∧
    (windowsToday tt day).Nodup := by
  have h1 : tt ≠ [] := by
    intro h
    subst h
    exact h2 rfl
  have h3 := anyNone_eq_false_of_startsParse (fun w hw => (hp w hw).1)
  rw [gfds_success am teacher h1 h2 h3]
  exact ⟨rfl, builtSchedule_sorted tt am teacher day, builtSchedule_disjoint hd,
    builtSchedule_map_perm hp, windowsToday_nodup tt day⟩

/-- Witness for C2 amended at `exDisjointTt` (two disjoint windows). -/
theorem C2_amended_witness :
    periodsToday exDisjointTt "MONDAY" ≠ [] ∧
    (∀ w ∈ windowsToday exDisjointTt "MONDAY", bothParse w) ∧
    (∀ w ∈ windowsToday exDisjointTt "MONDAY",
      ∀ w' ∈ windowsToday exDisjointTt "MONDAY", w ≠ w' → winDisjoint w w') ∧
    ((get_full_day_schedule exDisjointTt [] "T" "MONDAY").2 = "" ∧
     (get_full_day_schedule exDisjointTt [] "T" "MONDAY").1.Pairwise
       (fun a b => Tod.le a.StartTime b.StartTime = true) ∧
     (get_full_day_schedule exDisjointTt [] "T" "MONDAY").1.Pairwise slotsDisjoint ∧
     ((get_full_day_schedule exDisjointTt [] "T" "MONDAY").1.map rawWin).Perm
       (windowsToday exDisjointTt "MONDAY") ∧
     (windowsToday exDisjointTt "MONDAY").Nodup) :=
  ⟨by decide, by decide, by decide,
   C2_amended exDisjointTt [] "T" "MONDAY" (by decide) (by decide) (by decide)⟩

/-! ## Helper lemmas: empty index and the no-match branches -/

theorem entryMatches_nil (p : Entry) : entryMatches [] p = false := by
  rw [show entryMatches [] p = false ↔ ¬entryMatches [] p = true from by simp]
  rw [entryMatches, List.any_eq_true]
  rintro ⟨tok, _, htok⟩
  cases htok

theorem matchedOf_nil (group : List Entry) : matchedOf [] group = [] := by
  induction group with
  | nil => rfl
  | cons p g ih =>
    unfold matchedOf at ih ⊢
    rw [List.filterMap_cons, if_neg (by simp [entryMatches_nil])]
    exact ih

theorem slotBody_nil_type (periods : List Entry) (w : String × String) (s e : Tod) :
    (slotBody [] periods w s e).type_ = "Break" ∨
    (slotBody [] periods w s e).type_ = "Free" := by
  unfold slotBody
  rw [matchedOf_nil]
  cases (groupOf periods w).find? isBreakOf
  · right; rfl
  · left; rfl

/-! ## Claim C10: teacher with no stored assignments -/

/-- C10: for a teacher whose stored assignment list is empty (an
unknown or unregistered teacher), a non-empty timetable with
well-formed entries for the day still builds successfully with an empty
error, every produced slot is `Break` or `Free` (never `Teaching`), and
for *any* timetable/day the core only ever produces the empty status or
one of its three data errors — never an UnknownTeacher/NoAssignments
error. -/
theorem C10_unknown_teacher (tt : List Entry) (am : List (String × List Assignment))
    (teacher day : String) (ha : lookupAssignments am teacher = [])
    (h2 : periodsToday tt day ≠ [])
    (hp : ∀ w ∈ windowsToday tt day, bothParse w) :
    (get_full_day_schedule tt am teacher day).2 = "" ∧
    (∀ b ∈ (get_full_day_schedule tt am teacher day).1,
      b.type_ = "Break" ∨ b.type_ = "Free") ∧
    (∀ tt' : List Entry, ∀ day' : String,
      (get_full_day_schedule tt' am teacher day').2 = "" ∨
      (get_full_day_schedule tt' am teacher day').2 = "No timetable data loaded." ∨
      (get_full_day_schedule tt' am teacher day').2 = "No timetable entries for that day." ∨
      (get_full_day_schedule tt' am teacher day').2 = "Time parsing error in timetable.") := by
  have h1 : tt ≠ [] := by
    intro h
    subst h
    exact h2 rfl
  have h3 := anyNone_eq_false_of_startsParse (fun w hw => (hp w hw).1)
  refine ⟨?_, ?_, ?_⟩
  · rw [gfds_success am teacher h1 h2 h3]
  · intro b hb
    rw [gfds_success am teacher h1 h2 h3] at hb
    obtain ⟨w, hw, hbs⟩ := mem_builtSchedule hb
    obtain ⟨_, _, _, _, hbody⟩ := buildSlot_eq_some hbs
    have hidx : idxOf am teacher = [] := by
      unfold idxOf
      rw [ha]
      rfl
    rw [hbody, hidx]
    exact slotBody_nil_type _ _ _ _
  · intro tt' day'
    unfold get_full_day_schedule
    split
    · right; left; rfl
    · split
      · right; right; left; rfl
      · split
        · right; right; right; rfl
        · left; rfl

/-- Witness for C10: the unknown teacher `"Nobody"` against the
one-entry Monday timetable. -/
theorem C10_unknown_teacher_witness :
    lookupAssignments exOneAm "Nobody" = [] ∧
    periodsToday exOneTt "MONDAY" ≠ [] ∧
    (∀ w ∈ windowsToday exOneTt "MONDAY", bothParse w) ∧
    ((get_full_day_schedule exOneTt exOneAm "Nobody" "MONDAY").2 = "" ∧
     (∀ b ∈ (get_full_day_schedule exOneTt exOneAm "Nobody" "MONDAY").1,
       b.type_ = "Break" ∨ b.type_ = "Free") ∧
     (∀ tt' : List Entry, ∀ day' : String,
       (get_full_day_schedule tt' exOneAm "Nobody" day').2 = "" ∨
       (get_full_day_schedule tt' exOneAm "Nobody" day').2 = "No timetable data loaded." ∨
       (get_full_day_schedule tt' exOneAm "Nobody" day').2 = "No timetable entries for that day." ∨
       (get_full_day_schedule tt' exOneAm "Nobody" day').2 = "Time parsing error in timetable.")) :=
  ⟨by decide, by decide, by decide,
   C10_unknown_teacher exOneTt exOneAm "Nobody" "MONDAY"
     (by decide) (by decide) (by decide)⟩

/-! ## Claim C4: coalescing simultaneous matches into one Multiple slot -/

/-- C4: whenever more than one entry of a window matches the teacher,
the builder emits for that window exactly one slot: a `Multiple`-flagged
Teaching slot whose `Subject` is the `", "`-join of the
`"{Subject} with {Class}"` display pairs deduplicated preserving
first-seen order (the dedup is duplicate-free, order-preserving — a
sublist of the raw pair list — and complete). -/
theorem C4_multiple_coalesce (idx : List (String × List String))
    (periods : List Entry) (w : String × String) (s e : Tod)
    (hs : strptimeHM (convert_to_24hour w.1) = some s)
    (he : strptimeHM (convert_to_24hour w.2) = some e)
    (hm : 2 ≤ (matchedOf idx (groupOf periods w)).length) :
    buildSlot idx periods w = some
      { StartTime := s, EndTime := e, StartTimeStr := w.1, EndTimeStr := w.2,
        type_ := "Teaching", Class := some "Multiple Classes",
        Subject := some (String.intercalate ", "
          (dedupFirst (pairTexts (matchedOf idx (groupOf periods w))))),
        Multiple := true, Details := matchedOf idx (groupOf periods w) } ∧
    (dedupFirst (pairTexts (matchedOf idx (groupOf periods w)))).Nodup ∧
    (dedupFirst (pairTexts (matchedOf idx (groupOf periods w)))).Sublist
      (pairTexts (matchedOf idx (groupOf periods w))) ∧
    (∀ p ∈ pairTexts (matchedOf idx (groupOf periods w)),
      p ∈ dedupFirst (pairTexts (matchedOf idx (groupOf periods w)))) := by
  refine ⟨?_, nodup_dedupFirst _, sublist_dedupFirst _,
    fun p hp => mem_dedupFirst.mpr hp⟩
  unfold buildSlot
  rw [hs, he]
  unfold slotBody
  cases hM : matchedOf idx (groupOf periods w) with
  | nil =>
    rw [hM] at hm
    simp at hm
  | cons ta rest =>
    cases rest with
    | nil =>
      rw [hM] at hm
      simp at hm
    | cons ta2 rest2 => rfl

/-- Witness for C4: Jane teaching two classes in the identical window;
the whole day builds to exactly one Multiple slot, not two. -/
theorem C4_multiple_coalesce_witness :
    strptimeHM (convert_to_24hour "8:00") = some ⟨8, 0⟩ ∧
    strptimeHM (convert_to_24hour "8:40") = some ⟨8, 40⟩ ∧
    2 ≤ (matchedOf (idxOf exMultiAm "Jane")
      (groupOf (periodsToday exMultiTt "MONDAY") ("8:00", "8:40"))).length ∧
    buildSlot (idxOf exMultiAm "Jane") (periodsToday exMultiTt "MONDAY")
        ("8:00", "8:40") = some
      { StartTime := ⟨8, 0⟩, EndTime := ⟨8, 40⟩, StartTimeStr := "8:00",
        EndTimeStr := "8:40", type_ := "Teaching",
        Class := some "Multiple Classes",
        Subject := some (String.intercalate ", "
          (dedupFirst (pairTexts (matchedOf (idxOf exMultiAm "Jane")
            (groupOf (periodsToday exMultiTt "MONDAY") ("8:00", "8:40")))))),
        Multiple := true,
        Details := matchedOf (idxOf exMultiAm "Jane")
          (groupOf (periodsToday exMultiTt "MONDAY") ("8:00", "8:40")) } ∧
    (get_full_day_schedule exMultiTt exMultiAm "Jane" "MONDAY").1.length = 1 ∧
    (get_full_day_schedule exMultiTt exMultiAm "Jane" "MONDAY").1.map
      (fun b => (b.Multiple, b.type_, b.Subject)) =
      [(true, "Teaching", some "MATH with FORM 1, MATH with FORM 2")] :=
  ⟨by decide, by decide, by decide,
   (C4_multiple_coalesce (idxOf exMultiAm "Jane") (periodsToday exMultiTt "MONDAY")
     ("8:00", "8:40") ⟨8, 0⟩ ⟨8, 40⟩ (by decide) (by decide) (by decide)).1,
   by decide, by decide⟩

/-! ## Helper lemmas: the assigned-subject index -/

theorem indexHas_nil (cls subj : String) : indexHas [] cls subj = false := rfl

theorem indexHas_cons (c0 : String) (ss0 : List String)
    (rest : List (String × List String)) (cls subj : String) :
    indexHas ((c0, ss0) :: rest) cls subj =
      if c0 = cls then decide (subj ∈ ss0) else indexHas rest cls subj := by
  unfold indexHas lookupIndex
  by_cases h : c0 = cls
  · rw [List.find?_cons_of_pos _ (by simp [h]), if_pos h]
    rfl
  · rw [List.find?_cons_of_neg _ (by simp [h]), if_neg h]

theorem indexHas_indexAdd (idx : List (String × List String)) (c v cls subj : String) :
    indexHas (indexAdd idx c v) cls subj = true ↔
      (indexHas idx cls subj = true ∨ (c = cls ∧ v = subj)) := by
  induction idx with
  | nil =>
    show indexHas [(c, [v])] cls subj = true ↔ _
    rw [indexHas_cons, indexHas_nil]
    by_cases hc : c = cls
    · rw [if_pos hc]
      simp [hc, eq_comm]
    · rw [if_neg hc]
      simp [hc]
  | cons kv rest ih =>
    obtain ⟨c0, ss0⟩ := kv
    show indexHas (if c0 == c then _ else _) cls subj = true ↔ _
    by_cases h0c : c0 = c
    · rw [if_pos (by simp [h0c])]
      rw [indexHas_cons, indexHas_cons]
      by_cases h0cls : c0 = cls
      · rw [if_pos h0cls, if_pos h0cls]
        subst h0cls
        subst h0c
        by_cases hv : v ∈ ss0
        · rw [if_pos hv]
          simp only [decide_eq_true_eq]
          constructor
          · intro h
            exact Or.inl h
          · rintro (h | ⟨_, rfl⟩)
            · exact h
            · exact hv
        · rw [if_neg hv]
          simp only [decide_eq_true_eq, List.mem_append, List.mem_singleton,
            true_and]
          constructor
          · rintro (h | h)
            · exact Or.inl h
            · exact Or.inr h.symm
          · rintro (h | rfl)
            · exact Or.inl h
            · exact Or.inr rfl
      · rw [if_neg h0cls, if_neg h0cls]
        have : ¬c = cls := by
          subst h0c
          exact h0cls
        simp [this]
    · rw [if_neg (by simp [h0c])]
      rw [indexHas_cons, indexHas_cons]
      by_cases h0cls : c0 = cls
      · rw [if_pos h0cls, if_pos h0cls]
        have : ¬c = cls := by
          intro h
          exact h0c (h0cls.trans h.symm)
        simp [this]
      · rw [if_neg h0cls, if_neg h0cls]
        exact ih

theorem indexHas_buildIndex {asg : List Assignment} {cls subj : String} :
    indexHas (buildIndex asg) cls subj = true ↔
      ∃ a ∈ asg, a.Class = cls ∧ pyUpper (pyStrip a.Subject) = subj := by
  have hfold : ∀ (l : List Assignment) (idx : List (String × List String)),
      indexHas (l.foldl (fun i a => indexAdd i a.Class (pyUpper (pyStrip a.Subject))) idx)
          cls subj = true ↔
        (indexHas idx cls subj = true ∨
          ∃ a ∈ l, a.Class = cls ∧ pyUpper (pyStrip a.Subject) = subj) := by
    intro l
    induction l with
    | nil => simp
    | cons a l ih =>
      intro idx
      rw [List.foldl_cons, ih, indexHas_indexAdd]
      simp only [List.mem_cons]
      constructor
      · rintro ((h | ⟨h1, h2⟩) | ⟨a', ha', h1, h2⟩)
        · exact Or.inl h
        · exact Or.inr ⟨a, Or.inl rfl, h1, h2⟩
        · exact Or.inr ⟨a', Or.inr ha', h1, h2⟩
      · rintro (h | ⟨a', (rfl | ha'), h1, h2⟩)
        · exact Or.inl (Or.inl h)
        · exact Or.inl (Or.inr ⟨h1, h2⟩)
        · exact Or.inr ⟨a', ha', h1, h2⟩
  unfold buildIndex
  rw [hfold]
  rw [indexHas_nil]
  simp

/-! ## Claim C5: the assignment matcher -/

/-- C5: a timetable entry matches a teacher's assignment list exactly
when some assignment has the entry's `Class` and its normalized subject
equals one of the `/`-delimited, trimmed, uppercased tokens of the
entry's `Subject`; in particular the `"ENG/ELT"` cell matches a teacher
assigned `(X, "ELT")` and, independently, one assigned `(X, "ENG")`,
and not one assigned `(X, "FRE")`. -/
theorem C5_assignment_matcher (asg : List Assignment) (e : Entry) :
    (entryMatches (buildIndex asg) e = true ↔
      ∃ a ∈ asg, a.Class = e.Class ∧
        ∃ tok ∈ subjectTokens e.Subject, tok = pyUpper (pyStrip a.Subject)) ∧
    entryMatches (buildIndex [⟨"X", "ELT"⟩]) exEngElt = true ∧
    entryMatches (buildIndex [⟨"X", "ENG"⟩]) exEngElt = true ∧
    entryMatches (buildIndex [⟨"X", "FRE"⟩]) exEngElt = false := by
  refine ⟨?_, by decide, by decide, by decide⟩
  unfold entryMatches
  rw [List.any_eq_true]
  constructor
  · rintro ⟨tok, htok, hih⟩
    obtain ⟨a, ha, h1, h2⟩ := indexHas_buildIndex.mp hih
    exact ⟨a, ha, h1, tok, htok, h2.symm⟩
  · rintro ⟨a, ha, h1, tok, htok, h2⟩
    exact ⟨tok, htok, indexHas_buildIndex.mpr ⟨a, ha, h1, h2.symm⟩⟩

/-! ## Helper lemmas: the current/next scanning loop -/

theorem coversB_false_of_disjoint {t : Tod} {a b : DaySlot}
    (hd : slotsDisjoint a b) (ha : coversB t a = true) : coversB t b = false := by
  cases hb : coversB t b
  · rfl
  · exfalso
    rw [coversB, Bool.and_eq_true] at ha hb
    obtain ⟨ha1, ha2⟩ := ha
    obtain ⟨hb1, hb2⟩ := hb
    rw [Tod.le_iff] at ha1 hb1
    rw [Tod.lt_iff] at ha2 hb2
    rcases hd with h | h
    · rw [Tod.le_iff] at h
      omega
    · rw [Tod.le_iff] at h
      omega

theorem startsAfterB_false_of_covers {t : Tod} {a : DaySlot}
    (ha : coversB t a = true) : startsAfterB t a = false := by
  rw [coversB, Bool.and_eq_true] at ha
  exact Tod.not_lt_of_le ha.1

theorem foldl_stepCN_fst_const {t : Tod} {l : List DaySlot}
    (h : ∀ b ∈ l, coversB t b = false) :
    ∀ cn : Option DaySlot × Option DaySlot, (l.foldl (stepCN t) cn).1 = cn.1 := by
  induction l with
  | nil => intro cn; rfl
  | cons x xs ih =>
    intro cn
    rw [List.foldl_cons]
    have hx := h x (List.mem_cons_self x xs)
    have hkeep : (stepCN t cn x).1 = cn.1 := by
      unfold stepCN
      rw [if_neg (by simp [hx])]
      split <;> rfl
    rw [ih (fun b hb => h b (List.mem_cons_of_mem x hb)) (stepCN t cn x), hkeep]

theorem foldl_stepCN_snd_some {t : Tod} {l : List DaySlot} (v : DaySlot) :
    ∀ c : Option DaySlot, (l.foldl (stepCN t) (c, some v)).2 = some v := by
  induction l with
  | nil => intro c; rfl
  | cons x xs ih =>
    intro c
    rw [List.foldl_cons]
    have hstep : ∃ c', stepCN t (c, some v) x = (c', some v) := by
      unfold stepCN
      split
      · exact ⟨some x, rfl⟩
      · split
        · simp at *
        · exact ⟨c, rfl⟩
    obtain ⟨c', hc'⟩ := hstep
    rw [hc']
    exact ih c'

theorem foldl_stepCN_fst {t : Tod} :
    ∀ l : List DaySlot, l.Pairwise slotsDisjoint →
      ∀ n0 : Option DaySlot,
        (l.foldl (stepCN t) (none, n0)).1 = l.find? (coversB t) := by
  intro l
  induction l with
  | nil => intro _ n0; rfl
  | cons x xs ih =>
    intro hpw n0
    rw [List.foldl_cons]
    by_cases hx : coversB t x = true
    · have hstep : stepCN t (none, n0) x = (some x, n0) := by
        unfold stepCN
        rw [if_pos hx]
      have hall : ∀ b ∈ xs, coversB t b = false := fun b hb =>
        coversB_false_of_disjoint (List.rel_of_pairwise_cons hpw hb) hx
      rw [hstep, List.find?_cons_of_pos _ hx]
      exact foldl_stepCN_fst_const hall (some x, n0)
    · have hx' : coversB t x = false := Bool.eq_false_iff.mpr hx
      have hstep : ∃ n1, stepCN t (none, n0) x = (none, n1) := by
        unfold stepCN
        rw [if_neg (by simp [hx'])]
        split
        · exact ⟨some x, rfl⟩
        · exact ⟨n0, rfl⟩
      obtain ⟨n1, hn1⟩ := hstep
      rw [hn1, List.find?_cons_of_neg _ (by simp [hx'])]
      exact ih (List.Pairwise.of_cons hpw) _

theorem foldl_stepCN_snd {t : Tod} :
    ∀ l : List DaySlot, ∀ c : Option DaySlot,
      (l.foldl (stepCN t) (c, none)).2 = l.find? (fun s => startsAfterB t s) := by
  intro l
  induction l with
  | nil => intro c; rfl
  | cons x xs ih =>
    intro c
    rw [List.foldl_cons]
    by_cases hx : coversB t x = true
    · have hstep : stepCN t (c, none) x = (some x, none) := by
        unfold stepCN
        rw [if_pos hx]
      rw [hstep,
        List.find?_cons_of_neg _ (by simp [startsAfterB_false_of_covers hx]),
        ih (some x)]
    · have hx' : coversB t x = false := Bool.eq_false_iff.mpr hx
      by_cases hsa : startsAfterB t x = true
      · have hstep : stepCN t (c, none) x = (c, some x) := by
          unfold stepCN
          rw [if_neg (by simp [hx']), if_pos (by simp [hsa])]
        rw [hstep, List.find?_cons_of_pos _ hsa]
        exact foldl_stepCN_snd_some x c
      · have hsa' : startsAfterB t x = false := Bool.eq_false_iff.mpr hsa
        have hstep : stepCN t (c, none) x = (c, none) := by
          unfold stepCN
          rw [if_neg (by simp [hx']), if_neg (by simp [hsa'])]
        rw [hstep, List.find?_cons_of_neg _ (by simp [hsa']), ih c]

theorem scanCN_fst {t : Tod} {l : List DaySlot} (hpw : l.Pairwise slotsDisjoint) :
    (scanCN t l).1 = l.find? (coversB t) :=
  foldl_stepCN_fst l hpw none

theorem scanCN_snd (t : Tod) (l : List DaySlot) :
    (scanCN t l).2 = l.find? (fun s => startsAfterB t s) :=
  foldl_stepCN_snd l none

theorem teachingSorted_pairwise {full : List DaySlot}
    (h : full.Pairwise slotsDisjoint) :
    (teachingSorted full).Pairwise slotsDisjoint :=
  ((List.perm_insertionSort _ _).pairwise_iff
    (fun hx => slotsDisjoint_symm hx)).mpr
    (h.sublist (List.filter_sublist _))

/-! ## Helper lemmas: unfolding the instant resolver -/

theorem fts_eq {tt : List Entry} (am : List (String × List Assignment))
    (teacher day tstr : String) {t : Tod} (h1 : tt ≠ [])
    (ht : strptimeHM (convert_to_24hour tstr) = some t)
    (hok : (get_full_day_schedule tt am teacher day).2 = "") :
    find_teacher_schedule tt am teacher day tstr =
      ((scanCN t (teachingSorted (get_full_day_schedule tt am teacher day).1)).1,
       (scanCN t (teachingSorted (get_full_day_schedule tt am teacher day).1)).2,
       "",
       (get_full_day_schedule tt am teacher day).1.filter
         (fun p => p.type_ == "Free")) := by
  unfold find_teacher_schedule
  rw [if_neg (by simp [List.isEmpty_eq_false, h1]), ht]
  show (if (get_full_day_schedule tt am teacher day).2 != "" then _ else _) = _
  rw [if_neg (by simp [hok])]

/-! ## Claim C3: the instant resolver -/

/-- C3 counterexample: with two overlapping Teaching windows
(`exOverlapTeachTt`, both assigned to Jane) and instant 8:45, *two*
Teaching slots satisfy `start <= instant < end` (so no unique such slot
exists), and the resolver's `current` — the last match of its scan —
differs from the first slot a direct scan of the sorted slots finds. -/
theorem C3_counterexample :
    strptimeHM (convert_to_24hour "8:45") = some ⟨8, 45⟩ ∧
    ((teachingSorted
        (get_full_day_schedule exOverlapTeachTt exOverlapTeachAm "Jane" "MONDAY").1).filter
      (coversB ⟨8, 45⟩)).length = 2 ∧
    (find_teacher_schedule exOverlapTeachTt exOverlapTeachAm "Jane" "MONDAY" "8:45").1 ≠
      (teachingSorted
        (get_full_day_schedule exOverlapTeachTt exOverlapTeachAm "Jane" "MONDAY").1).find?
        (coversB ⟨8, 45⟩) := by
  refine ⟨by decide, by decide, by decide⟩

/-- C3 amended: under the partition hypotheses (every window of the day
parses and distinct windows are pairwise non-overlapping), for every
parsable instant the resolver succeeds, its `current` is the first —
hence, by the also-proved uniqueness, the *unique* — Teaching slot with
`start <= instant < end` (so a direct scan agrees with it), and its
`next` is the first Teaching slot in ascending start order with
`start > instant`. -/
theorem C3_instant_resolver (tt : List Entry) (am : List (String × List Assignment))
    (teacher day tstr : String) (t : Tod)
    (h2 : periodsToday tt day ≠ [])
    (hp : ∀ w ∈ windowsToday tt day, bothParse w)
    (hd : ∀ w ∈ windowsToday tt day, ∀ w' ∈ windowsToday tt day,
      w ≠ w' → winDisjoint w w')
    (ht : strptimeHM (convert_to_24hour tstr) = some t) :
    (find_teacher_schedule tt am teacher day tstr).2.2.1 = "" ∧
    (find_teacher_schedule tt am teacher day tstr).1 =
      (teachingSorted (get_full_day_schedule tt am teacher day).1).find?
        (coversB t) ∧
    (find_teacher_schedule tt am teacher day tstr).2.1 =
      (teachingSorted (get_full_day_schedule tt am teacher day).1).find?
        (fun s => startsAfterB t s) ∧
    (∀ a ∈ teachingSorted (get_full_day_schedule tt am teacher day).1,
     ∀ b ∈ teachingSorted (get_full_day_schedule tt am teacher day).1,
      coversB t a = true → coversB t b = true → a = b) := by
  have h1 : tt ≠ [] := by
    intro h
    subst h
    exact h2 rfl
  have h3 := anyNone_eq_false_of_startsParse (fun w hw => (hp w hw).1)
  have hok : (get_full_day_schedule tt am teacher day).2 = "" := by
    rw [gfds_success am teacher h1 h2 h3]
  have hfullpw : (get_full_day_schedule tt am teacher day).1.Pairwise slotsDisjoint := by
    rw [gfds_success am teacher h1 h2 h3]
    exact builtSchedule_disjoint hd
  have hteach := teachingSorted_pairwise hfullpw
  rw [fts_eq am teacher day tstr h1 ht hok]
  refine ⟨rfl, scanCN_fst hteach, scanCN_snd t _, ?_⟩
  intro a ha b hb hca hcb
  by_contra hne
  have hdis := hteach.forall (fun _ _ h => slotsDisjoint_symm h) ha hb hne
  rw [coversB_false_of_disjoint hdis hca] at hcb
  cases hcb

/-- Witness for C3 at the single-window Monday and instant 8:10. -/
theorem C3_instant_resolver_witness :
    periodsToday exOneTt "MONDAY" ≠ [] ∧
    (∀ w ∈ windowsToday exOneTt "MONDAY", bothParse w) ∧
    (∀ w ∈ windowsToday exOneTt "MONDAY", ∀ w' ∈ windowsToday exOneTt "MONDAY",
      w ≠ w' → winDisjoint w w') ∧
    strptimeHM (convert_to_24hour "8:10") = some ⟨8, 10⟩ ∧
    ((find_teacher_schedule exOneTt exOneAm "Jane" "MONDAY" "8:10").2.2.1 = "" ∧
     (find_teacher_schedule exOneTt exOneAm "Jane" "MONDAY" "8:10").1 =
       (teachingSorted (get_full_day_schedule exOneTt exOneAm "Jane" "MONDAY").1).find?
         (coversB ⟨8, 10⟩) ∧
     (find_teacher_schedule exOneTt exOneAm "Jane" "MONDAY" "8:10").2.1 =
       (teachingSorted (get_full_day_schedule exOneTt exOneAm "Jane" "MONDAY").1).find?
         (fun s => startsAfterB ⟨8, 10⟩ s) ∧
     (∀ a ∈ teachingSorted (get_full_day_schedule exOneTt exOneAm "Jane" "MONDAY").1,
      ∀ b ∈ teachingSorted (get_full_day_schedule exOneTt exOneAm "Jane" "MONDAY").1,
       coversB ⟨8, 10⟩ a = true → coversB ⟨8, 10⟩ b = true → a = b)) :=
  ⟨by decide, by decide, by decide, by decide,
   C3_instant_resolver exOneTt exOneAm "Jane" "MONDAY" "8:10" ⟨8, 10⟩
     (by decide) (by decide) (by decide) (by decide)⟩

end Sternfield
